import Mathlib

/-!
# Verification of the Fridgecipe+ ingredient-extraction core

A shallow embedding of `app.py`.  Python strings are modelled as `List Char`
(one entry per code point); Python's `json.loads`, `str.strip`, `str.lower`,
`str.split`, `str.replace`, `base64.b64encode` and f-string interpolation are
modelled by executable Lean functions below, each annotated with the Python
behaviour it reproduces.  The external OpenAI client and the Streamlit UI are
collaborators: their outcomes (success payload / raised exception / missing
credential) are passed in as explicit values, exactly as the `try/except` and
`if client is None` branches of the source consume them.
-/

namespace Fridgecipe

/-- The set of characters stripped by Python's no-argument `str.strip()`:
Python strips every character `c` with `c.isspace()`.  We model the code
points below U+0300 for which that holds (tab, LF, VT, FF, CR, space,
FS, GS, RS, US, NEL, NBSP); higher Unicode space code points exist but the
model is faithful on the ASCII/Latin-1 range the application manipulates. -/
def pyIsSpace (c : Char) : Bool :=
  c == ' ' || c == '\t' || c == '\n' || c == '\r' ||
  c == Char.ofNat 11 || c == Char.ofNat 12 ||
  c == Char.ofNat 28 || c == Char.ofNat 29 || c == Char.ofNat 30 ||
  c == Char.ofNat 31 || c == Char.ofNat 133 || c == Char.ofNat 160

/-- Remove the longest suffix of characters satisfying `p`
(the right half of Python's `str.strip`). -/
def dropEndWhile (p : Char → Bool) : List Char → List Char
  | [] => []
  | a :: l =>
    match dropEndWhile p l with
    | [] => if p a then [] else [a]
    | b :: m => a :: b :: m

/-- Python's `str.strip(chars)`: remove the characters satisfying `p`
from both ends. -/
def pyStripWith (p : Char → Bool) (l : List Char) : List Char :=
  dropEndWhile p (l.dropWhile p)

/-- Python's `str.strip()` (no argument): strip whitespace from both ends. -/
def pyStrip (l : List Char) : List Char :=
  pyStripWith pyIsSpace l

/-- The character set of the source's `p.strip(" -•")`: exactly the space
character, the hyphen and the bullet — NOT tabs or other whitespace. -/
def dashSet (c : Char) : Bool :=
  c == ' ' || c == '-' || c == '•'

/-- Python's `p.strip(" -•")` from the fallback branch of
`detect_ingredients_with_gpt`. -/
def pyStripDash (l : List Char) : List Char :=
  pyStripWith dashSet l

/-- Python's `str.lower()` on the ASCII range: `Char.toLower` maps
`'A'..'Z'` to `'a'..'z'` and fixes everything else, which is exactly
Python's behaviour on ASCII (full-Unicode case mapping is out of scope). -/
def pyLower (l : List Char) : List Char :=
  l.map Char.toLower

/-- An ASCII uppercase letter (code point 65–90, i.e. `A`–`Z`). -/
def isUpperAscii (c : Char) : Bool :=
  decide (65 ≤ c.toNat ∧ c.toNat ≤ 90)

/-- Python's `s.split(",")`: split at every comma, keeping empty pieces;
the empty string yields one empty piece. -/
def splitComma : List Char → List (List Char)
  | [] => [[]]
  | c :: rest =>
    if c == ',' then
      [] :: splitComma rest
    else
      match splitComma rest with
      | [] => [[c]]
      | p :: ps => (c :: p) :: ps

/-- Python's `raw.replace("\n", ",")` (single-character pattern, hence a
character-wise map). -/
def nlToComma (l : List Char) : List Char :=
  l.map fun c => if c == '\n' then ',' else c

/-- Python's `raw.rindex(ch)` as an `Option`: index of the last occurrence
(`none` models the `ValueError` that sends the source to its fallback). -/
def rfindIdx (ch : Char) (l : List Char) : Option Nat :=
  match List.findIdx? (· == ch) l.reverse with
  | none => none
  | some i => some (l.length - 1 - i)

/-- Python's `raw.index(ch)` as an `Option` (`none` models `ValueError`). -/
def findIdx (ch : Char) (l : List Char) : Option Nat :=
  List.findIdx? (· == ch) l

/-- Python's slice `l[start:stop]` for `0 ≤ start ≤ stop` (the only shape the
source uses: `raw[start:end]` with `end = rindex + 1`). -/
def pySlice (l : List Char) (start stop : Nat) : List Char :=
  (l.drop start).take (stop - start)

/-- The opening curly bracket character. -/
def lbrace : Char := Char.ofNat 123

/-- The closing curly bracket character. -/
def rbrace : Char := Char.ofNat 125

/-- The single-quote character. -/
def squote : Char := Char.ofNat 39

/-- A value decoded by Python's `json.loads`: `None`, `bool`, `int`, `float`,
`str`, `list`, `dict`.  A float keeps the literal text it was parsed from
(see `pyStr` for how its `str()` form is modelled). -/
inductive JValue where
  | jnull : JValue
  | jbool : Bool → JValue
  | jint : Int → JValue
  | jfloat : List Char → JValue
  | jstr : List Char → JValue
  | jarr : List JValue → JValue
  | jobj : List (List Char × JValue) → JValue

/-- JSON whitespace (the characters `json.loads` skips between tokens). -/
def jsonWsChar (c : Char) : Bool :=
  c == ' ' || c == '\t' || c == '\n' || c == '\r'

/-- Skip JSON whitespace. -/
def skipWs (l : List Char) : List Char :=
  l.dropWhile jsonWsChar

/-- Value of one hexadecimal digit. -/
def hexVal (c : Char) : Option Nat :=
  if '0' ≤ c ∧ c ≤ '9' then some (c.toNat - 48)
  else if 'a' ≤ c ∧ c ≤ 'f' then some (c.toNat - 87)
  else if 'A' ≤ c ∧ c ≤ 'F' then some (c.toNat - 55)
  else none

/-- Four hexadecimal digits (the `XXXX` of a `\uXXXX` escape). -/
def parseHex4 : List Char → Option (Nat × List Char)
  | a :: b :: c :: d :: rest =>
    match hexVal a, hexVal b, hexVal c, hexVal d with
    | some x, some y, some z, some w => some (4096 * x + 256 * y + 16 * z + w, rest)
    | _, _, _, _ => none
  | _ => none

/-- The body of a JSON string literal, after the opening quote: decoded
content plus the rest after the closing quote.  Strict mode as in
`json.loads`: raw control characters below U+0020 are rejected; the escapes
are the eight JSON ones plus `\uXXXX` with surrogate-pair combination.
(A lone surrogate escape is rejected here because a Lean `Char` cannot hold
it; CPython would produce a lone-surrogate `str`.  No claim depends on it.)
Each step consumes at least one character, so `fuel = length + 1` suffices. -/
def parseStringBody : Nat → List Char → Option (List Char × List Char)
  | 0, _ => none
  | fuel + 1, cs =>
    match cs with
    | [] => none
    | c :: rest =>
      if c == '"' then some ([], rest)
      else if c == '\\' then
        match rest with
        | [] => none
        | e :: rest2 =>
          if e == '"' then (parseStringBody fuel rest2).map (fun p => ('"' :: p.1, p.2))
          else if e == '\\' then (parseStringBody fuel rest2).map (fun p => ('\\' :: p.1, p.2))
          else if e == '/' then (parseStringBody fuel rest2).map (fun p => ('/' :: p.1, p.2))
          else if e == 'b' then
            (parseStringBody fuel rest2).map (fun p => (Char.ofNat 8 :: p.1, p.2))
          else if e == 'f' then
            (parseStringBody fuel rest2).map (fun p => (Char.ofNat 12 :: p.1, p.2))
          else if e == 'n' then (parseStringBody fuel rest2).map (fun p => ('\n' :: p.1, p.2))
          else if e == 'r' then (parseStringBody fuel rest2).map (fun p => ('\r' :: p.1, p.2))
          else if e == 't' then (parseStringBody fuel rest2).map (fun p => ('\t' :: p.1, p.2))
          else if e == 'u' then
            match parseHex4 rest2 with
            | none => none
            | some (n, rest3) =>
              if 55296 ≤ n ∧ n ≤ 56319 then
                match rest3 with
                | '\\' :: 'u' :: rest4 =>
                  match parseHex4 rest4 with
                  | some (m, rest5) =>
                    if 56320 ≤ m ∧ m ≤ 57343 then
                      (parseStringBody fuel rest5).map
                        (fun p =>
                          (Char.ofNat (65536 + (n - 55296) * 1024 + (m - 56320)) :: p.1, p.2))
                    else none
                  | none => none
                | _ => none
              else if 56320 ≤ n ∧ n ≤ 57343 then none
              else (parseStringBody fuel rest3).map (fun p => (Char.ofNat n :: p.1, p.2))
          else none
      else if c.toNat < 32 then none
      else (parseStringBody fuel rest).map (fun p => (c :: p.1, p.2))

/-- Decimal value of a digit string. -/
def digitsToNat (ds : List Char) : Nat :=
  ds.foldl (fun a c => a * 10 + (c.toNat - 48)) 0

/-- One JSON number token, per the regex `json.loads` uses:
`(-?(?:0|[1-9]\d*))(\.\d+)?([eE][-+]?\d+)?`.  A token with no fraction and
no exponent decodes to a Python `int`; otherwise to a `float`, for which we
keep the literal text.  Like the regex, a leading `0` ends the integer part,
and a bare `.`/`e` is left unconsumed (the caller then fails on it, exactly
as CPython reports an error at that position). -/
def parseNumber (cs : List Char) : Option (JValue × List Char) :=
  let signAndRest : List Char × List Char :=
    match cs with
    | '-' :: r => (['-'], r)
    | _ => ([], cs)
  let sign := signAndRest.1
  let afterSign := signAndRest.2
  let intDigits : List Char :=
    match afterSign with
    | '0' :: _ => ['0']
    | _ => afterSign.takeWhile Char.isDigit
  if intDigits.isEmpty then none
  else
    let rest1 := afterSign.drop intDigits.length
    let fracAndRest : List Char × List Char :=
      match rest1 with
      | '.' :: r =>
        let ds := r.takeWhile Char.isDigit
        if ds.isEmpty then ([], rest1) else ('.' :: ds, r.drop ds.length)
      | _ => ([], rest1)
    let fracPart := fracAndRest.1
    let rest2 := fracAndRest.2
    let expAndRest : List Char × List Char :=
      match rest2 with
      | e :: r =>
        if e == 'e' || e == 'E' then
          let sgnAndRest : List Char × List Char :=
            match r with
            | s :: rr => if s == '+' || s == '-' then ([s], rr) else ([], r)
            | [] => ([], r)
          let ds := sgnAndRest.2.takeWhile Char.isDigit
          if ds.isEmpty then ([], rest2)
          else (e :: (sgnAndRest.1 ++ ds), sgnAndRest.2.drop ds.length)
        else ([], rest2)
      | [] => ([], rest2)
    let expPart := expAndRest.1
    let rest3 := expAndRest.2
    if fracPart.isEmpty && expPart.isEmpty then
      let n : Int := Int.ofNat (digitsToNat intDigits)
      some (.jint (if sign.isEmpty then n else -n), rest1)
    else
      some (.jfloat (sign ++ intDigits ++ fracPart ++ expPart), rest3)

/-- Insert a key into a decoded object the way a Python `dict` does while
`json.loads` builds it: a repeated key keeps its first position and takes
the last value. -/
def insertKey (fs : List (List Char × JValue)) (k : List Char) (v : JValue) :
    List (List Char × JValue) :=
  match fs with
  | [] => [(k, v)]
  | (k', v') :: t => if k' = k then (k', v) :: t else (k', v') :: insertKey t k v

mutual

/-- One JSON value starting at `cs` (leading JSON whitespace allowed),
following the grammar accepted by Python's `json.loads` in its default strict
mode, including the CPython extensions `NaN`, `Infinity` and `-Infinity`
(whose decoded `str()` forms are `nan`, `inf`, `-inf`).  Returns the decoded
value and the unconsumed rest.  `fuel` only bounds the recursion depth;
`jsonParse` supplies more than any input can use. -/
def parseValue : Nat → List Char → Option (JValue × List Char)
  | 0, _ => none
  | fuel + 1, cs =>
    match skipWs cs with
    | [] => none
    | c :: rest =>
      if c == '"' then
        match parseStringBody (rest.length + 1) rest with
        | some (s, r) => some (.jstr s, r)
        | none => none
      else if c == '[' then
        match skipWs rest with
        | ']' :: r => some (.jarr [], r)
        | _ => parseElems fuel rest []
      else if c == lbrace then
        match skipWs rest with
        | d :: r => if d == rbrace then some (.jobj [], r) else parseMembers fuel rest []
        | [] => none
      else if c == 't' then
        match rest with
        | 'r' :: 'u' :: 'e' :: r => some (.jbool true, r)
        | _ => none
      else if c == 'f' then
        match rest with
        | 'a' :: 'l' :: 's' :: 'e' :: r => some (.jbool false, r)
        | _ => none
      else if c == 'n' then
        match rest with
        | 'u' :: 'l' :: 'l' :: r => some (.jnull, r)
        | _ => none
      else if c == 'N' then
        match rest with
        | 'a' :: 'N' :: r => some (.jfloat "nan".toList, r)
        | _ => none
      else if c == 'I' then
        match rest with
        | 'n' :: 'f' :: 'i' :: 'n' :: 'i' :: 't' :: 'y' :: r =>
          some (.jfloat "inf".toList, r)
        | _ => none
      else if c == '-' then
        match rest with
        | 'I' :: 'n' :: 'f' :: 'i' :: 'n' :: 'i' :: 't' :: 'y' :: r =>
          some (.jfloat "-inf".toList, r)
        | _ => parseNumber (c :: rest)
      else if c.isDigit then parseNumber (c :: rest)
      else none

/-- The elements of a JSON array after its `[`, when the array is not empty:
value, then `,` and more values, closed by `]`. -/
def parseElems : Nat → List Char → List JValue → Option (JValue × List Char)
  | 0, _, _ => none
  | fuel + 1, cs, acc =>
    match parseValue fuel cs with
    | none => none
    | some (v, rest) =>
      match skipWs rest with
      | ',' :: r => parseElems fuel r (acc ++ [v])
      | c :: r => if c == ']' then some (.jarr (acc ++ [v]), r) else none
      | [] => none

/-- The members of a JSON object after its opening bracket, when the object
is not empty: string key, `:`, value, then `,` and more members, closed by
the closing bracket. -/
def parseMembers : Nat → List Char → List (List Char × JValue) →
    Option (JValue × List Char)
  | 0, _, _ => none
  | fuel + 1, cs, acc =>
    match skipWs cs with
    | [] => none
    | c :: rest =>
      if c == '"' then
        match parseStringBody (rest.length + 1) rest with
        | none => none
        | some (k, r1) =>
          match skipWs r1 with
          | ':' :: r2 =>
            match parseValue fuel r2 with
            | none => none
            | some (v, r3) =>
              match skipWs r3 with
              | ',' :: r4 => parseMembers fuel r4 (insertKey acc k v)
              | d :: r4 =>
                if d == rbrace then some (.jobj (insertKey acc k v), r4) else none
              | [] => none
          | _ => none
      else none

end

/-- Python's `json.loads`: the whole input must be exactly one JSON value
with optional surrounding whitespace; anything else raises (modelled as
`none`). -/
def jsonParse (cs : List Char) : Option JValue :=
  match parseValue (2 * cs.length + 8) cs with
  | some (v, rest) => if (skipWs rest).isEmpty then some v else none
  | none => none

/-- One hexadecimal digit character. -/
def hexDigitChar (n : Nat) : Char :=
  if n < 10 then Char.ofNat (48 + n) else Char.ofNat (87 + n)

/-- Two-digit hexadecimal form of a byte. -/
def hex2 (n : Nat) : List Char :=
  [hexDigitChar (n / 16 % 16), hexDigitChar (n % 16)]

/-- Python `repr` of one character inside a string literal delimited by
quote `q`: backslash-escape the backslash, the delimiter and the common
control characters; `\xXX` for other non-printable Latin-1 characters. -/
def pyReprChar (q c : Char) : List Char :=
  if c == '\\' then ['\\', '\\']
  else if c == q then ['\\', q]
  else if c == '\n' then ['\\', 'n']
  else if c == '\r' then ['\\', 'r']
  else if c == '\t' then ['\\', 't']
  else if c.toNat < 32 || (127 ≤ c.toNat && c.toNat ≤ 160) then '\\' :: 'x' :: hex2 c.toNat
  else [c]

/-- Python `repr` of a string: delimited by single quotes, unless the string
contains a single quote and no double quote, in which case double quotes. -/
def pyReprStr (s : List Char) : List Char :=
  let q : Char := if s.contains squote && !(s.contains '"') then '"' else squote
  q :: (s.map (pyReprChar q)).flatten ++ [q]

mutual

/-- Python `repr` of a value decoded by `json.loads`: `None`/`True`/`False`,
decimal integers, quoted strings, and containers whose elements are
themselves shown with `repr`, joined by `", "`.  A float shows its literal
text (Python's shortest-repr of a float equals the literal for literals
already written in canonical form; claims never rely on other floats). -/
def pyRepr : JValue → List Char
  | .jnull => "None".toList
  | .jbool true => "True".toList
  | .jbool false => "False".toList
  | .jint i => (toString i).toList
  | .jfloat raw => raw
  | .jstr s => pyReprStr s
  | .jarr l => '[' :: (List.intercalate ", ".toList (pyReprL l) ++ [']'])
  | .jobj fs => lbrace :: (List.intercalate ", ".toList (pyReprF fs) ++ [rbrace])

/-- `repr` of each element of a decoded list. -/
def pyReprL : List JValue → List (List Char)
  | [] => []
  | v :: t => pyRepr v :: pyReprL t

/-- `repr` of each `key: value` member of a decoded object. -/
def pyReprF : List (List Char × JValue) → List (List Char)
  | [] => []
  | (k, v) :: t => (pyReprStr k ++ ": ".toList ++ pyRepr v) :: pyReprF t

end

/-- Python `str(i)` as applied at line 140 of `app.py` to an element of a
decoded JSON array: the string itself for a `str`, and `repr` for every
other value (for which `str` and `repr` agree). -/
def pyStr : JValue → List Char
  | .jstr s => s
  | v => pyRepr v

/-- One entry of a structured completion content (`message.content` given as
a list).  `detect_ingredients_with_gpt` reads `getattr(part, "text", None)`
and falls back to `str(part)` when the attribute is missing or `None`:
`withText` carries the text attribute, `strForm` carries `str(part)` for a
part without one. -/
inductive ContentPart where
  | withText : List Char → ContentPart
  | strForm : List Char → ContentPart

/-- The text contributed by one content part (lines 121–124 of `app.py`). -/
def partText : ContentPart → List Char
  | .withText t => t
  | .strForm r => r

/-- A `RawCompletionPayload`: `message.content` is either a plain string, a
list of content parts, or `None`. -/
inductive MsgContent where
  | str : List Char → MsgContent
  | parts : List ContentPart → MsgContent
  | none : MsgContent

/-- Lines 117–127 of `app.py`: flatten `message.content` to one string — a
list of parts is joined by newline; `msg_content or ""` turns `None` (and
the empty string) into the empty string; any other string is used as-is. -/
def flattenContent : MsgContent → List Char
  | .str s => s
  | .parts ps => List.intercalate ['\n'] (ps.map partText)
  | .none => []

/-- Lines 139–141 of `app.py`: normalize the elements of the decoded JSON
array — keep those whose whitespace-stripped `str()` form is non-empty, each
stripped and lowercased. -/
def normalizeElems (elems : List JValue) : List (List Char) :=
  (elems.filter fun i => !(pyStrip (pyStr i)).isEmpty).map
    fun i => pyLower (pyStrip (pyStr i))

/-- Lines 134–138 of `app.py` (the `try` block before normalization): find
the first `[` and the last `]` (`index`/`rindex` raise when absent — `none`
here), slice inclusively, and `json.loads` the slice into an array.
`none` is every path into the `except` branch.  (A successful parse of the
slice is necessarily an array, since the slice starts with `[`; a non-array
result would also fall to the fallback, as iterating over it at line 140
would raise.) -/
def primaryElems (raw : List Char) : Option (List JValue) :=
  match findIdx '[' raw with
  | Option.none => Option.none
  | some start =>
    match rfindIdx ']' raw with
    | Option.none => Option.none
    | some e =>
      match jsonParse (pySlice raw start (e + 1)) with
      | some (.jarr elems) => some elems
      | _ => Option.none

/-- Lines 134–141 of `app.py`: the whole `try` block — decoded array,
normalized. -/
def primaryResult (raw : List Char) : Option (List (List Char)) :=
  (primaryElems raw).map normalizeElems

/-- Lines 143–149 of `app.py` (the `except` branch): replace newlines by
commas, split on commas, keep the pieces with a non-whitespace character,
and strip each of spaces/hyphens/bullets and lowercase it. -/
def fallbackResult (raw : List Char) : List (List Char) :=
  ((splitComma (nlToComma raw)).filter fun p => !(pyStrip p).isEmpty).map
    fun p => pyLower (pyStripDash p)

/-- Lines 133–154 of `app.py`: the two-tier parse followed by the final
removal of empty strings (line 152). -/
def detectFromRaw (raw : List Char) : List (List Char) :=
  (match primaryResult raw with
   | some l => l
   | Option.none => fallbackResult raw).filter fun i => !i.isEmpty

/-- The parsing pipeline applied to a whole `message.content` payload
(lines 117–154 of `app.py`). -/
def detectFromContent (m : MsgContent) : List (List Char) :=
  detectFromRaw (flattenContent m)

/-- String-level convenience wrapper around `detectFromRaw`. -/
def detectIngredients (raw : String) : List String :=
  (detectFromRaw raw.toList).map fun l => ⟨l⟩

/-- The outcome of the `client.chat.completions.create` vision call as the
`try/except` of `detect_ingredients_with_gpt` consumes it: either a payload
or a raised exception. -/
inductive VisionOutcome where
  | ok : MsgContent → VisionOutcome
  | raised : VisionOutcome

/-- `detect_ingredients_with_gpt` end to end (lines 75–154 of `app.py`):
`clientUp` is whether the OpenAI client was initialised (line 75 returns
`[]` when not); a raised service call returns `[]` (lines 110–112);
otherwise the payload goes through the parsing pipeline. -/
def detect_ingredients_with_gpt (clientUp : Bool) (outcome : VisionOutcome) :
    List (List Char) :=
  if !clientUp then []
  else
    match outcome with
    | .raised => []
    | .ok content => detectFromContent content

/-- Line 22 / line 163 warning text (the client-missing message of
`generate_recipes_with_gpt`). -/
def clientMissingMsg : String := "⚠️ OpenAI client 未初始化，请检查 OPENAI_API_KEY。"

/-- Line 195: the error text returned when the text-generation call raises,
with the exception's message interpolated. -/
def recipeErrorMsg (e : String) : String := "调用 OpenAI 生成菜谱时出错：" ++ e

/-- The outcome of the text-generation call in `generate_recipes_with_gpt`:
a payload, or a raised exception carrying its message. -/
inductive TextOutcome where
  | ok : MsgContent → TextOutcome
  | raised : String → TextOutcome

/-- Lines 165–170 of `app.py`: `", ".join(ingredients)`. -/
def joinIngredients (ingredients : List String) : String :=
  String.intercalate ", " ingredients

/-- The f-string template of `generate_recipes_with_gpt` up to `{ing_str}`. -/
def promptHead : String :=
  "\nYou are an AI cooking assistant. A user has the following ingredients in their fridge:\n\n"

/-- The f-string template between `{ing_str}` and `{servings}`. -/
def promptMid : String :=
  "\n\nPlease create 3–4 simple recipes using mostly these ingredients.\n\n" ++
  "For EACH recipe, provide:\n1. Recipe name (English)\n" ++
  "2. Short description (1–2 sentences)\n" ++
  "3. Ingredients list with approximate amounts\n" ++
  "4. Step-by-step instructions (4–8 short steps)\n" ++
  "5. A short note about how this recipe helps reduce food waste.\n\n" ++
  "Write everything in clear English, beginner-friendly, formatted in Markdown.\n" ++
  "Assume about "

/-- The f-string template after `{servings}`. -/
def promptTail : String := " servings per recipe.\n"

/-- Lines 165–183 of `app.py`: the recipe prompt, with the comma-joined
ingredient list and `str(servings)` interpolated. -/
def recipePrompt (ingredients : List String) (servings : Nat) : String :=
  promptHead ++ (joinIngredients ingredients ++ (promptMid ++ (toString servings ++ promptTail)))

/-- `generate_recipes_with_gpt` end to end (lines 157–211 of `app.py`):
missing client returns the warning string (lines 162–163); a raised call
returns the error string (lines 194–195); otherwise the completion content
is flattened exactly as in the detection path (lines 197–209) and returned. -/
def generate_recipes_with_gpt (clientUp : Bool) (outcome : TextOutcome) : String :=
  if !clientUp then clientMissingMsg
  else
    match outcome with
    | .raised e => recipeErrorMsg e
    | .ok content => ⟨flattenContent content⟩

/-- The base64 alphabet. -/
def b64Alphabet : List Char :=
  "ABCDEFGHIJKLMNOPQRSTUVWXYZabcdefghijklmnopqrstuvwxyz0123456789+/".toList

/-- The base64 digit for a 6-bit value. -/
def b64Char (n : Nat) : Char := b64Alphabet.getD n 'A'

/-- Python's `base64.b64encode` on a byte string (bytes as `Nat`s, reduced
mod 256), producing the standard-alphabet, `=`-padded encoding; `app.py`
decodes it as UTF-8, which on this alphabet is the identity. -/
def b64encode : List Nat → List Char
  | [] => []
  | [a] =>
    let a := a % 256
    [b64Char (a / 4), b64Char (a % 4 * 16), '=', '=']
  | [a, b] =>
    let a := a % 256
    let b := b % 256
    [b64Char (a / 4), b64Char (a % 4 * 16 + b / 16), b64Char (b % 16 * 4), '=']
  | a :: b :: c :: rest =>
    let a := a % 256
    let b := b % 256
    let c := c % 256
    b64Char (a / 4) :: b64Char (a % 4 * 16 + b / 16) ::
      b64Char (b % 16 * 4 + c / 64) :: b64Char (c % 64) :: b64encode rest

/-- Lines 79–80 of `app.py`: `f"data:image/png;base64,{base64_img}"` applied
to the base64 encoding of the uploaded file's bytes — the media type is the
fixed text `image/png`, whatever the bytes contain. -/
def image_data_url (imageBytes : List Nat) : List Char :=
  "data:image/png;base64,".toList ++ b64encode imageBytes

/-- How a consumer reads the declared media type of a `data:` URL: the
characters after `data:` up to the first `;`. -/
def dataUrlMediaType (url : List Char) : List Char :=
  (url.drop 5).takeWhile fun c => !(c == ';')

/-- Does `needle` occur at the head of `hay`? -/
def headMatches : List Char → List Char → Bool
  | [], _ => true
  | _ :: _, [] => false
  | a :: as, b :: bs => a == b && headMatches as bs

/-- Does `needle` occur anywhere in `hay` (contiguously)? -/
def containsSeq (hay needle : List Char) : Bool :=
  match hay with
  | [] => needle.isEmpty
  | _ :: t => headMatches needle hay || containsSeq t needle

/-- Python's `needle in hay` on strings. -/
def strContains (hay needle : String) : Bool :=
  containsSeq hay.toList needle.toList

/-- The characters on which the fallback tokenizer is guaranteed to produce
nothing: space, newline, comma, hyphen, bullet. -/
def benignChar (c : Char) : Bool :=
  c == ' ' || c == '\n' || c == ',' || c == '-' || c == '•'

/-! ## Helper lemmas -/

theorem char_toNat_ofNat_of_lt (n : Nat) (h : n < 55296) : (Char.ofNat n).toNat = n := by
  have hv : n.isValidChar := Or.inl h
  rw [Char.ofNat, dif_pos hv]
  rfl

theorem toLower_not_upper (c : Char) : isUpperAscii (Char.toLower c) = false := by
  unfold isUpperAscii Char.toLower
  dsimp only
  split_ifs with hc
  · rw [char_toNat_ofNat_of_lt (c.toNat + 32) (by omega)]
    simp
    omega
  · simp
    omega

theorem toLower_ne_space (c : Char) (h : c ≠ ' ') : Char.toLower c ≠ ' ' := by
  unfold Char.toLower
  dsimp only
  split_ifs with hc
  · intro heq
    have := congrArg Char.toNat heq
    rw [char_toNat_ofNat_of_lt (c.toNat + 32) (by omega)] at this
    have hsp : (' ' : Char).toNat = 32 := rfl
    omega
  · exact h

theorem pyLower_ne_nil (l : List Char) (h : l ≠ []) : pyLower l ≠ [] := by
  simpa [pyLower, List.map_eq_nil_iff] using h

theorem filter_keep_nonempty (l : List (List Char)) (h : ∀ x ∈ l, x ≠ []) :
    (l.filter fun i => !i.isEmpty) = l := by
  refine List.filter_eq_self.mpr ?_
  intro a ha
  simpa [List.isEmpty_iff] using h a ha

theorem mem_normalizeElems_shape (x : List Char) (elems : List JValue)
    (h : x ∈ normalizeElems elems) : ∃ y, x = pyLower (pyStripWith pyIsSpace y) := by
  unfold normalizeElems at h
  rcases List.mem_map.mp h with ⟨i, _, rfl⟩
  exact ⟨pyStr i, rfl⟩

theorem normalizeElems_mem_ne_nil (elems : List JValue) :
    ∀ x ∈ normalizeElems elems, x ≠ [] := by
  intro x hx
  unfold normalizeElems at hx
  rcases List.mem_map.mp hx with ⟨i, hi, rfl⟩
  have := (List.mem_filter.mp hi).2
  refine pyLower_ne_nil _ ?_
  simpa [List.isEmpty_iff] using this

theorem mem_fallbackResult_shape (x raw : List Char) (h : x ∈ fallbackResult raw) :
    ∃ y, x = pyLower (pyStripWith dashSet y) := by
  unfold fallbackResult at h
  rcases List.mem_map.mp h with ⟨p, _, rfl⟩
  exact ⟨p, rfl⟩

theorem dropWhile_head_not (p : Char → Bool) (l : List Char) (c : Char)
    (h : (l.dropWhile p).head? = some c) : p c = false := by
  induction l with
  | nil => simp [List.dropWhile] at h
  | cons a t ih =>
    rw [List.dropWhile_cons] at h
    by_cases hpa : p a
    · rw [if_pos hpa] at h
      exact ih h
    · rw [if_neg hpa] at h
      simp at h
      subst h
      simpa using hpa

theorem dropEndWhile_head_cases (p : Char → Bool) (a : Char) (t : List Char) :
    dropEndWhile p (a :: t) = [] ∨ (dropEndWhile p (a :: t)).head? = some a := by
  simp only [dropEndWhile]
  cases dropEndWhile p t with
  | nil =>
    by_cases hpa : p a
    · rw [if_pos hpa]
      exact Or.inl rfl
    · rw [if_neg hpa]
      exact Or.inr rfl
  | cons b m => exact Or.inr rfl

theorem dropEndWhile_getLast_not (p : Char → Bool) (l : List Char) (c : Char)
    (h : (dropEndWhile p l).getLast? = some c) : p c = false := by
  induction l with
  | nil => simp [dropEndWhile] at h
  | cons a t ih =>
    simp only [dropEndWhile] at h
    cases hr : dropEndWhile p t with
    | nil =>
      rw [hr] at h
      by_cases hpa : p a
      · rw [if_pos hpa] at h
        simp at h
      · rw [if_neg hpa] at h
        simp at h
        subst h
        simpa using hpa
    | cons b m =>
      rw [hr] at h
      rw [List.getLast?_cons_cons, ← hr] at h
      exact ih h

theorem stripWith_head_not (p : Char → Bool) (l : List Char) (c : Char)
    (h : (pyStripWith p l).head? = some c) : p c = false := by
  unfold pyStripWith at h
  cases hd : l.dropWhile p with
  | nil =>
    rw [hd] at h
    simp [dropEndWhile] at h
  | cons a t =>
    rw [hd] at h
    rcases dropEndWhile_head_cases p a t with he | he
    · rw [he] at h
      simp at h
    · rw [he] at h
      have hac : a = c := by simpa using h
      subst hac
      exact dropWhile_head_not p l a (by rw [hd]; rfl)

theorem stripWith_getLast_not (p : Char → Bool) (l : List Char) (c : Char)
    (h : (pyStripWith p l).getLast? = some c) : p c = false :=
  dropEndWhile_getLast_not p (l.dropWhile p) c h

theorem entry_shape_props (q : Char → Bool) (hq : q ' ' = true) (y : List Char) :
    (∀ c ∈ pyLower (pyStripWith q y), isUpperAscii c = false) ∧
    (pyLower (pyStripWith q y)).head? ≠ some ' ' ∧
    (pyLower (pyStripWith q y)).getLast? ≠ some ' ' := by
  refine ⟨?_, ?_, ?_⟩
  · intro c hc
    rcases List.mem_map.mp hc with ⟨d, _, rfl⟩
    exact toLower_not_upper d
  · rw [pyLower, List.head?_map]
    cases hh : (pyStripWith q y).head? with
    | none => simp
    | some d =>
      have hd : q d = false := stripWith_head_not q y d hh
      have hds : d ≠ ' ' := fun hsp => by rw [hsp, hq] at hd; cases hd
      simp only [Option.map_some']
      intro hcon
      exact toLower_ne_space d hds (by simpa using hcon)
  · rw [pyLower, List.getLast?_map]
    cases hh : (pyStripWith q y).getLast? with
    | none => simp
    | some d =>
      have hd : q d = false := stripWith_getLast_not q y d hh
      have hds : d ≠ ' ' := fun hsp => by rw [hsp, hq] at hd; cases hd
      simp only [Option.map_some']
      intro hcon
      exact toLower_ne_space d hds (by simpa using hcon)

theorem headMatches_refl (l : List Char) : headMatches l l = true := by
  induction l with
  | nil => rfl
  | cons a as ih => simp [headMatches, ih]

theorem headMatches_append_right (n : List Char) :
    ∀ h suf, headMatches n h = true → headMatches n (h ++ suf) = true := by
  induction n with
  | nil => intro h suf _; rfl
  | cons a as ih =>
    intro h suf hm
    cases h with
    | nil => simp [headMatches] at hm
    | cons b bs =>
      simp only [headMatches, Bool.and_eq_true] at hm
      simp only [List.cons_append, headMatches, Bool.and_eq_true]
      exact ⟨hm.1, ih bs suf hm.2⟩

theorem containsSeq_nil_needle (h : List Char) : containsSeq h [] = true := by
  cases h with
  | nil => rfl
  | cons c t => simp [containsSeq, headMatches]

theorem containsSeq_of_headMatches (h n : List Char) (hm : headMatches n h = true) :
    containsSeq h n = true := by
  cases h with
  | nil =>
    cases n with
    | nil => rfl
    | cons a as => simp [headMatches] at hm
  | cons c t => simp [containsSeq, hm]

theorem containsSeq_append_left (pre h n : List Char) (hc : containsSeq h n = true) :
    containsSeq (pre ++ h) n = true := by
  induction pre with
  | nil => simpa using hc
  | cons a t ih => simp [containsSeq, ih]

theorem containsSeq_append_right (h : List Char) :
    ∀ suf n, containsSeq h n = true → containsSeq (h ++ suf) n = true := by
  induction h with
  | nil =>
    intro suf n hc
    simp only [containsSeq, List.isEmpty_iff] at hc
    subst hc
    simpa using containsSeq_nil_needle suf
  | cons c t ih =>
    intro suf n hc
    simp only [containsSeq, Bool.or_eq_true] at hc
    rcases hc with hm | hc
    · exact containsSeq_of_headMatches _ _ (headMatches_append_right n (c :: t) suf hm)
    · simp only [List.cons_append, containsSeq, Bool.or_eq_true]
      exact Or.inr (ih suf n hc)

theorem containsSeq_self_append (x suf : List Char) : containsSeq (x ++ suf) x = true :=
  containsSeq_append_right x suf x
    (containsSeq_of_headMatches x x (headMatches_refl x))

theorem splitComma_chars (raw : List Char) :
    ∀ p ∈ splitComma raw, ∀ c ∈ p, c ∈ raw ∧ (c == ',') = false := by
  induction raw with
  | nil =>
    intro p hp c hc
    simp only [splitComma, List.mem_singleton] at hp
    subst hp
    simp at hc
  | cons a t ih =>
    intro p hp c hc
    by_cases ha : a == ','
    · rw [splitComma, if_pos ha] at hp
      rcases List.mem_cons.mp hp with rfl | hp'
      · simp at hc
      · have := ih p hp' c hc
        exact ⟨List.mem_cons_of_mem a this.1, this.2⟩
    · rw [splitComma, if_neg ha] at hp
      cases hs : splitComma t with
      | nil =>
        rw [hs] at hp
        simp only [List.mem_singleton] at hp
        subst hp
        simp only [List.mem_singleton] at hc
        subst hc
        exact ⟨List.mem_cons_self c t, by simpa using ha⟩
      | cons p0 ps =>
        rw [hs] at hp
        rcases List.mem_cons.mp hp with rfl | hp'
        · rcases List.mem_cons.mp hc with rfl | hc'
          · exact ⟨List.mem_cons_self c t, by simpa using ha⟩
          · have hp0 : p0 ∈ splitComma t := by rw [hs]; exact List.mem_cons_self p0 ps
            have := ih p0 hp0 c hc'
            exact ⟨List.mem_cons_of_mem a this.1, this.2⟩
        · have hpt : p ∈ splitComma t := by rw [hs]; exact List.mem_cons_of_mem p0 hp'
          have := ih p hpt c hc
          exact ⟨List.mem_cons_of_mem a this.1, this.2⟩

theorem benignChar_not_bracket (c : Char) (h : benignChar c = true) : (c == '[') = false := by
  unfold benignChar at h
  simp only [Bool.or_eq_true, beq_iff_eq] at h
  simp only [beq_eq_false_iff_ne, ne_eq]
  rcases h with (((h | h) | h) | h) | h <;> subst h <;> decide

theorem benign_nlmap_char (raw : List Char) (h : ∀ c ∈ raw, benignChar c = true)
    (c : Char) (hc : c ∈ nlToComma raw) (hnc : (c == ',') = false) : dashSet c = true := by
  unfold nlToComma at hc
  rcases List.mem_map.mp hc with ⟨d, hd, rfl⟩
  have hb := h d hd
  unfold benignChar at hb
  unfold dashSet
  by_cases hdn : d == '\n'
  · rw [if_pos hdn] at hnc
    simp at hnc
  · rw [if_neg hdn] at hnc ⊢
    simp only [Bool.or_eq_true, beq_iff_eq] at hb ⊢
    simp only [beq_eq_false_iff_ne, ne_eq] at hnc
    simp only [beq_iff_eq, ne_eq] at hdn
    rcases hb with (((h1 | h1) | h1) | h1) | h1
    · exact Or.inl (Or.inl h1)
    · exact absurd h1 hdn
    · exact absurd h1 hnc
    · exact Or.inl (Or.inr h1)
    · exact Or.inr h1

theorem primaryElems_none_of_no_bracket (raw : List Char)
    (h : ∀ c ∈ raw, (c == '[') = false) : primaryElems raw = Option.none := by
  unfold primaryElems findIdx
  rw [List.findIdx?_eq_none_iff.mpr h]

theorem fallbackResult_benign_nil (raw : List Char) (h : ∀ c ∈ raw, benignChar c = true) :
    ((fallbackResult raw).filter fun i => !i.isEmpty) = [] := by
  refine List.filter_eq_nil_iff.mpr ?_
  intro x hx
  unfold fallbackResult at hx
  rcases List.mem_map.mp hx with ⟨p, hp, rfl⟩
  have hp' : p ∈ splitComma (nlToComma raw) := (List.mem_filter.mp hp).1
  have hall : ∀ c ∈ p, dashSet c = true := by
    intro c hc
    have hcc := splitComma_chars (nlToComma raw) p hp' c hc
    exact benign_nlmap_char raw h c hcc.1 hcc.2
  have hstrip : pyStripWith dashSet p = [] := by
    unfold pyStripWith
    rw [List.dropWhile_eq_nil_iff.mpr hall]
    rfl
  simp [pyStripDash, hstrip, pyLower]

/-! ## Claims -/

/-- **C1**: for every flattened payload string whose first `[` is at `s`,
whose last `]` is at `e`, and whose inclusive slice between them parses as a
JSON array, the extractor returns exactly the array's elements mapped to
their string form, trimmed of whitespace, lowercased, with empty results
dropped, in the array's order. -/
theorem primary_parse_spec (raw : List Char) (s e : Nat) (elems : List JValue)
    (hs : findIdx '[' raw = some s) (he : rfindIdx ']' raw = some e)
    (hj : jsonParse (pySlice raw s (e + 1)) = some (.jarr elems)) :
    detectFromRaw raw =
      (elems.filter fun i => !(pyStrip (pyStr i)).isEmpty).map
        fun i => pyLower (pyStrip (pyStr i)) := by
  have hp : primaryElems raw = some elems := by
    unfold primaryElems
    simp only [hs, he, hj]
  unfold detectFromRaw primaryResult
  rw [hp]
  exact filter_keep_nonempty _ (normalizeElems_mem_ne_nil elems)

/-- Witness for `primary_parse_spec` at the spec's own example payload
`here: ["milk", "Eggs ", ""]`, which yields `["milk", "eggs"]`. -/
theorem primary_parse_spec_witness :
    detectFromRaw "here: [\"milk\", \"Eggs \", \"\"]".toList =
      ["milk".toList, "eggs".toList] := by
  have h := primary_parse_spec "here: [\"milk\", \"Eggs \", \"\"]".toList 6 26
    [.jstr "milk".toList, .jstr "Eggs ".toList, .jstr "".toList] rfl rfl rfl
  rw [h]
  decide

/-- **C2** fails as stated: on the bracket-free payload `milk,\tEggs` the
fallback is taken and the second entry keeps its leading tab, because the
source strips only `" -•"` (the space character, not all whitespace); an
entry trimmed of surrounding whitespace would have been `eggs`. -/
theorem fallback_tab_counterexample :
    detectIngredients "milk,\tEggs" = ["milk", "\teggs"] ∧
    pyStrip "\teggs".toList ≠ "\teggs".toList := by decide

/-- **C2** (amended): whenever the primary parse fails (no `[`/`]` pair, or
the slice does not decode as a JSON array), the extractor replaces newlines
with commas, splits on commas, drops pieces that are entirely whitespace,
trims each remaining piece of surrounding spaces, `-` and `•` (only the
space character among whitespace), lowercases it, and finally drops empty
results. -/
theorem fallback_parse_spec (raw : List Char) (h : primaryElems raw = Option.none) :
    detectFromRaw raw =
      ((((splitComma (nlToComma raw)).filter fun p => !(pyStrip p).isEmpty).map
          fun p => pyLower (pyStripDash p)).filter fun i => !i.isEmpty) := by
  unfold detectFromRaw primaryResult
  rw [h]
  rfl

/-- Witness for `fallback_parse_spec` at the spec's own example
`milk, Eggs\n- lettuce`, which yields `["milk", "eggs", "lettuce"]`. -/
theorem fallback_parse_spec_witness :
    primaryElems "milk, Eggs\n- lettuce".toList = Option.none ∧
    detectFromRaw "milk, Eggs\n- lettuce".toList =
      ["milk".toList, "eggs".toList, "lettuce".toList] := by
  refine ⟨rfl, ?_⟩
  rw [fallback_parse_spec "milk, Eggs\n- lettuce".toList rfl]
  decide

/-- **C3** fails as stated: the payload `"."` consists only of punctuation,
yet the extractor returns `["."]`, not the empty list — the fallback only
discards whitespace/`-`/`•`/comma material, not arbitrary punctuation. -/
theorem punctuation_payload_counterexample :
    detectIngredients "." = ["."] ∧ detectIngredients "." ≠ [] := by decide

/-- **C3** (amended): the pipeline is a total function (every failure path
falls through to the next strategy by construction), and a payload whose
flattened text contains only spaces, newlines, commas, hyphens and bullets —
in particular the empty payload — yields the empty list.  Other punctuation
(e.g. `"."`) can surface as an ingredient. -/
theorem benign_payload_empty (m : MsgContent)
    (h : (flattenContent m).all benignChar = true) :
    detectFromContent m = [] := by
  have hforall : ∀ c ∈ flattenContent m, benignChar c = true := by
    intro c hc
    exact List.all_eq_true.mp h c hc
  have hp : primaryElems (flattenContent m) = Option.none :=
    primaryElems_none_of_no_bracket _ fun c hc => benignChar_not_bracket c (hforall c hc)
  unfold detectFromContent detectFromRaw primaryResult
  rw [hp]
  exact fallbackResult_benign_nil _ hforall

/-- Witness for `benign_payload_empty`: a two-part payload of bullets,
spaces, hyphens and commas flattens to benign text and yields `[]`. -/
theorem benign_payload_empty_witness :
    ((flattenContent (.parts [.withText "- • ".toList, .strForm ", ,--".toList])).all
        benignChar = true) ∧
    detectFromContent (.parts [.withText "- • ".toList, .strForm ", ,--".toList]) = [] :=
  ⟨by decide, benign_payload_empty _ (by decide)⟩

/-- **C4** fails as stated: on payload `a,\tB` the result is
`["a", "\tb"]`, whose second entry begins with a tab — a whitespace
character — so entries are not in general trimmed of surrounding
whitespace (nor of punctuation, cf. `punctuation_payload_counterexample`). -/
theorem entry_whitespace_counterexample :
    detectIngredients "a,\tB" = ["a", "\tb"] ∧
    pyIsSpace '\t' = true ∧ "\tb".toList.head? = some '\t' := by decide

/-- **C4** (amended): on both paths, every entry of the returned list is
non-empty, contains no uppercase ASCII letter, and neither begins nor ends
with a space character (tabs and punctuation may remain). -/
theorem ingredient_entries_invariant (m : MsgContent) (x : List Char)
    (hx : x ∈ detectFromContent m) :
    x ≠ [] ∧ (∀ c ∈ x, isUpperAscii c = false) ∧
    x.head? ≠ some ' ' ∧ x.getLast? ≠ some ' ' := by
  unfold detectFromContent detectFromRaw at hx
  rw [List.mem_filter] at hx
  obtain ⟨hmem, hne⟩ := hx
  refine ⟨by simpa [List.isEmpty_iff] using hne, ?_⟩
  cases hpe : primaryElems (flattenContent m) with
  | none =>
    unfold primaryResult at hmem
    rw [hpe] at hmem
    rcases mem_fallbackResult_shape x _ hmem with ⟨y, rfl⟩
    exact entry_shape_props dashSet rfl y
  | some elems =>
    unfold primaryResult at hmem
    rw [hpe] at hmem
    rcases mem_normalizeElems_shape x elems hmem with ⟨y, rfl⟩
    exact entry_shape_props pyIsSpace rfl y

/-- Witness for `ingredient_entries_invariant` at the payload `" Milk "`,
whose single entry `milk` satisfies all invariants. -/
theorem ingredient_entries_invariant_witness :
    "milk".toList ∈ detectFromContent (.str " Milk ".toList) ∧
    ("milk".toList ≠ [] ∧ (∀ c ∈ "milk".toList, isUpperAscii c = false) ∧
      "milk".toList.head? ≠ some ' ' ∧ "milk".toList.getLast? ≠ some ' ') :=
  ⟨by decide, ingredient_entries_invariant (.str " Milk ".toList) "milk".toList (by decide)⟩

/-- **C5**: flattening is transparent to the parse — a one-part payload
carrying a text field parses exactly like the same plain string (in
particular for `[{"text": "[\"a\",\"b\"]"}]`), a plain string is used
as-is, and a `None` or empty payload flattens to the empty string. -/
theorem flatten_transparent :
    (∀ t, detectFromContent (.parts [.withText t]) = detectFromContent (.str t)) ∧
    (∀ s, flattenContent (.str s) = s) ∧
    flattenContent MsgContent.none = [] ∧
    flattenContent (.parts []) = [] ∧
    detectFromContent (.parts [.withText "[\"a\",\"b\"]".toList]) =
      detectFromContent (.str "[\"a\",\"b\"]".toList) := by
  have hone : ∀ t : List Char, flattenContent (.parts [.withText t]) = t := by
    intro t
    simp [flattenContent, List.intercalate, partText]
  refine ⟨?_, fun s => rfl, rfl, rfl, ?_⟩
  · intro t
    unfold detectFromContent
    rw [hone]
    rfl
  · unfold detectFromContent
    rw [hone]
    rfl

set_option maxRecDepth 16384 in
/-- **C6**: for every non-empty ingredient list and every servings value,
the produced prompt contains the comma-joined ingredient list and the
decimal servings number as literal substrings, and carries the fixed
requests for 3–4 recipes with name, 1–2 sentence description, ingredient
amounts, 4–8 step instructions and a food-waste note. -/
theorem recipe_prompt_spec (ingredients : List String) (servings : Nat)
    (_hne : ingredients ≠ []) :
    strContains (recipePrompt ingredients servings) (joinIngredients ingredients) = true ∧
    strContains (recipePrompt ingredients servings) (toString servings) = true ∧
    strContains (recipePrompt ingredients servings) "3–4 simple recipes" = true ∧
    strContains (recipePrompt ingredients servings) "1. Recipe name" = true ∧
    strContains (recipePrompt ingredients servings) "2. Short description (1–2 sentences)" = true ∧
    strContains (recipePrompt ingredients servings)
      "3. Ingredients list with approximate amounts" = true ∧
    strContains (recipePrompt ingredients servings)
      "4. Step-by-step instructions (4–8 short steps)" = true ∧
    strContains (recipePrompt ingredients servings)
      "5. A short note about how this recipe helps reduce food waste." = true := by
  have hsplit : (recipePrompt ingredients servings).toList =
      promptHead.toList ++ ((joinIngredients ingredients).toList ++
        (promptMid.toList ++ ((toString servings).toList ++ promptTail.toList))) := by
    simp [recipePrompt, String.toList]
  refine ⟨?_, ?_, ?_, ?_, ?_, ?_, ?_, ?_⟩ <;> unfold strContains <;> rw [hsplit]
  · exact containsSeq_append_left _ _ _ (containsSeq_self_append _ _)
  · exact containsSeq_append_left _ _ _ (containsSeq_append_left _ _ _
      (containsSeq_append_left _ _ _ (containsSeq_self_append _ _)))
  all_goals exact containsSeq_append_left _ _ _ (containsSeq_append_left _ _ _
    (containsSeq_append_right _ _ _ (by decide)))

/-- Witness for `recipe_prompt_spec` at the spec's example: ingredients
`["milk", "eggs"]` and servings `2` give a prompt containing `milk, eggs`
and `2`. -/
theorem recipe_prompt_spec_witness :
    (["milk", "eggs"] : List String) ≠ [] ∧
    strContains (recipePrompt ["milk", "eggs"] 2) "milk, eggs" = true ∧
    strContains (recipePrompt ["milk", "eggs"] 2) "2" = true :=
  ⟨by decide, (recipe_prompt_spec ["milk", "eggs"] 2 (by decide)).1,
    (recipe_prompt_spec ["milk", "eggs"] 2 (by decide)).2.1⟩

/-- **C7**: if the vision call raises, or the client was never initialised
because the credential is absent, the end-to-end ingredient result is the
empty list — the fault is contained. -/
theorem detect_fault_containment (clientUp : Bool) (outcome : VisionOutcome)
    (h : clientUp = false ∨ outcome = VisionOutcome.raised) :
    detect_ingredients_with_gpt clientUp outcome = [] := by
  rcases h with h | h
  · subst h
    rfl
  · subst h
    cases clientUp <;> rfl

/-- Witness for `detect_fault_containment`: a raised vision call with an
initialised client yields `[]`. -/
theorem detect_fault_containment_witness :
    detect_ingredients_with_gpt true VisionOutcome.raised = [] :=
  detect_fault_containment true VisionOutcome.raised (Or.inr rfl)

/-- **C8**: recipe generation never propagates a fault — a missing client
returns the fixed warning string, and a raised text call returns the error
string with the exception message, each in place of the recipe markdown. -/
theorem recipes_fault_containment :
    (∀ outcome, generate_recipes_with_gpt false outcome = clientMissingMsg) ∧
    (∀ e, generate_recipes_with_gpt true (TextOutcome.raised e) = recipeErrorMsg e) :=
  ⟨fun _ => rfl, fun _ => rfl⟩

/-- **C9**: the extractor is deterministic and stateless — any two results
of running the pipeline on the same payload are equal. -/
theorem extractor_deterministic (m : MsgContent) (r1 r2 : List (List Char))
    (h1 : r1 = detectFromContent m) (h2 : r2 = detectFromContent m) : r1 = r2 :=
  h1.trans h2.symm

/-- Witness for `extractor_deterministic` at the payload `"Milk"`. -/
theorem extractor_deterministic_witness :
    (["milk".toList] : List (List Char)) = ["milk".toList] :=
  extractor_deterministic (.str "Milk".toList) ["milk".toList] ["milk".toList]
    (by decide) (by decide)

/-- **C10**: whatever the uploaded bytes are (JPEG, PNG or anything else),
the request's data URL starts with `data:image/png;base64,` and its declared
media type reads `image/png` — the declared type never depends on the
actual file format. -/
theorem data_url_always_png (imageBytes : List Nat) :
    headMatches "data:image/png;base64,".toList (image_data_url imageBytes) = true ∧
    dataUrlMediaType (image_data_url imageBytes) = "image/png".toList := by
  constructor
  · exact headMatches_append_right _ _ _ (headMatches_refl _)
  · rfl

end Fridgecipe
